import Mathlib

/-!
Shallow embedding of `src/epg_acontra.py` (an EPG scraper that repairs a
captured JSON schedule fragment, normalizes the entries into programs and
renders an XMLTV listing), together with theorems settling the claims
about its specification.

Python strings are modelled as lists of characters (`Str`), JSON-ish
optional fields as `Option`, and machine integers as `Int` (Python has
arbitrary-precision integers, so no overflow modelling is needed).
-/

/-- Python strings are modelled as lists of characters. -/
abbrev Str := List Char

/-- Character list of a Lean string literal. -/
def str (s : String) : Str := s.data

/-- Python `str.strip()`: remove leading and trailing whitespace. -/
def pyStrip (s : Str) : Str :=
  ((s.dropWhile Char.isWhitespace).reverse.dropWhile Char.isWhitespace).reverse

/-- Python `str.rstrip(",")` (line 41): remove every trailing comma. -/
def rstripCommas (s : Str) : Str :=
  (s.reverse.dropWhile (fun c => c = ',')).reverse

/-- The `image` object of an entry's metadata (keys `url`, `alternateText`). -/
structure RawImage where
  url : Option Str
  alternateText : Option Str
deriving DecidableEq

/-- The `contentMaturityRating` object of an entry's metadata. -/
structure RawRating where
  rating : Option Str
deriving DecidableEq

/-- The `metadata` object of a raw schedule entry.  `releaseYear` is a JSON
number in the source payload, hence `Option Int`. -/
structure RawMetadata where
  synopsis : Option Str
  releaseYear : Option Int
  title : Option Str
  image : Option RawImage
  contentMaturityRating : Option RawRating
deriving DecidableEq

/-- A raw schedule entry: a mapping with an optional `end` timestamp
(milliseconds, `end_ms` in the Python loop) and optional `metadata`. -/
structure RawScheduleEntry where
  end_ms : Option Int
  metadata : Option RawMetadata
deriving DecidableEq

/-- Python `metadata.get("metadata", {})` default: the empty mapping. -/
def emptyMeta : RawMetadata := ⟨none, none, none, none, none⟩

/-- Python `metadata.get("image", {})` default: the empty mapping. -/
def emptyImage : RawImage := ⟨none, none⟩

/-- A canonical program record, as built by `parse_programs_from_json`
(lines 96-104).  `start_ms` is `none` until the assignment loop runs. -/
structure Program where
  title : Str
  synopsis : Str
  release_year : Str
  rating : Str
  image_url : Str
  end_ms : Int
  start_ms : Option Int
deriving DecidableEq

/-- The nested `clean` helper (lines 76-78): strip surrounding whitespace,
then delete every literal backslash. -/
def clean (s : Str) : Str := (pyStrip s).filter (fun c => c ≠ '\\')

/-- Hexadecimal digit value of a character, if any. -/
def hexVal (c : Char) : Option Nat :=
  if '0' ≤ c ∧ c ≤ '9' then some (c.toNat - '0'.toNat)
  else if 'a' ≤ c ∧ c ≤ 'f' then some (c.toNat - 'a'.toNat + 10)
  else if 'A' ≤ c ∧ c ≤ 'F' then some (c.toNat - 'A'.toNat + 10)
  else none

/-- Models `urllib.parse.unquote` (line 93) at the single-byte level: each
`%XX` hex escape becomes the character with that code, anything else passes
through.  (The library function additionally recombines multi-byte UTF-8
sequences; no claim depends on that refinement.) -/
def unquote : Str → Str
  | [] => []
  | '%' :: h1 :: h2 :: rest =>
    match hexVal h1, hexVal h2 with
    | some a, some b => Char.ofNat (16 * a + b) :: unquote rest
    | _, _ => '%' :: unquote (h1 :: h2 :: rest)
  | c :: rest => c :: unquote rest
termination_by s => s.length

/-- A character matched by the regex class `[\da-fA-F]`. -/
def isHex (c : Char) : Bool :=
  c.isDigit || ('a' ≤ c && c ≤ 'f') || ('A' ≤ c && c ≤ 'F')

/-- Models `re.sub(r'\\u[\da-fA-F]{4}', '', s)` (line 94): delete each
leftmost non-overlapping match of a backslash-u-4-hex-digits escape. -/
def removeUnicodeEscapes : Str → Str
  | '\\' :: 'u' :: h1 :: h2 :: h3 :: h4 :: rest =>
    if isHex h1 && isHex h2 && isHex h3 && isHex h4 then
      removeUnicodeEscapes rest
    else
      '\\' :: removeUnicodeEscapes ('u' :: h1 :: h2 :: h3 :: h4 :: rest)
  | c :: rest => c :: removeUnicodeEscapes rest
  | [] => []
termination_by s => s.length

/-- Truthiness of the Python value `item.get("end")`: `None` and `0` are
falsy, every other integer is truthy (line 58-60). -/
def endTruthy : Option Int → Bool
  | none => false
  | some v => v != 0

/-- `item.get("metadata", {})` (line 62). -/
def metaOf (item : RawScheduleEntry) : RawMetadata := item.metadata.getD emptyMeta

/-- `metadata.get("image", {})` (line 69). -/
def imageOf (item : RawScheduleEntry) : RawImage := (metaOf item).image.getD emptyImage

/-- `metadata.get("title", "")` (line 67). -/
def rawTitleOf (item : RawScheduleEntry) : Str := ((metaOf item).title).getD []

/-- `image_obj.get("alternateText", "")` (line 71). -/
def altTextOf (item : RawScheduleEntry) : Str := ((imageOf item).alternateText).getD []

/-- `metadata.get("contentMaturityRating", {}).get("rating", "")` (lines 73-74). -/
def rawRatingOf (item : RawScheduleEntry) : Str :=
  (((metaOf item).contentMaturityRating.getD ⟨none⟩).rating).getD []

/-- `metadata.get("synopsis", "")` (line 65). -/
def rawSynopsisOf (item : RawScheduleEntry) : Str := ((metaOf item).synopsis).getD []

/-- `image_obj.get("url", "")` (line 91). -/
def rawUrlOf (item : RawScheduleEntry) : Str := ((imageOf item).url).getD []

/-- The body of the per-entry loop of `parse_programs_from_json`
(lines 62-104), producing the program dict appended for a kept entry.
Python leaves a falsy `releaseYear` (the number 0) unstringified; since the
renderer only tests it for truthiness, that state is encoded as the empty
string here. -/
def mkProgram (item : RawScheduleEntry) : Program :=
  let raw_title := if rawTitleOf item = [] then altTextOf item else rawTitleOf item
  let title := clean raw_title
  let rating := clean (rawRatingOf item)
  { title := if title = [] then str "Sin título" else title
  , synopsis := clean (rawSynopsisOf item)
  , release_year :=
      match (metaOf item).releaseYear with
      | none => []
      | some y => if y = 0 then [] else (toString y).data
  , rating := if rating = str "ALL" then str "Todas las edades" else rating
  , image_url :=
      if rawUrlOf item = [] then []
      else removeUnicodeEscapes (unquote (rawUrlOf item))
  , end_ms := (item.end_ms).getD 0
  , start_ms := none }

/-- The filtering loop of `parse_programs_from_json` (lines 57-104): keep
exactly the entries with a truthy `end`, each contributing one program. -/
def buildPrograms (schedule : List RawScheduleEntry) : List Program :=
  schedule.filterMap (fun item =>
    if endTruthy item.end_ms then some (mkProgram item) else none)

/-- The comparison key of `programs.sort(key=lambda p: p["end_ms"])` (line 107). -/
def progLE (a b : Program) : Prop := a.end_ms ≤ b.end_ms

instance : DecidableRel progLE := fun a b => inferInstanceAs (Decidable (a.end_ms ≤ b.end_ms))

instance : IsTotal Program progLE := ⟨fun a b => Int.le_total a.end_ms b.end_ms⟩

instance : IsTrans Program progLE := ⟨fun _ _ _ h1 h2 => Int.le_trans h1 h2⟩

/-- The tail of the `start_ms` assignment loop (lines 108-112): each program
receives the `end_ms` of its predecessor as `start_ms`. -/
def chainStarts : Int → List Program → List Program
  | _, [] => []
  | prev, p :: ps => { p with start_ms := some prev } :: chainStarts p.end_ms ps

/-- The `start_ms` assignment loop (lines 108-112): the first program gets
`end_ms - 2*3600*1000`, every later one the previous program's `end_ms`. -/
def assignStarts : List Program → List Program
  | [] => []
  | p :: ps => { p with start_ms := some (p.end_ms - 2 * 3600 * 1000) } :: chainStarts p.end_ms ps

/-- `parse_programs_from_json` (lines 54-114): build the programs, sort them
stably ascending by `end_ms` (Python's `list.sort` is a stable sort; it is
modelled by the stable `List.insertionSort`), then assign the starts. -/
def parse_programs_from_json (schedule : List RawScheduleEntry) : List Program :=
  assignStarts (List.insertionSort progLE (buildPrograms schedule))

/-- A program with its `start_ms` forgotten; the sort and start-assignment
stages only ever change `start_ms`, so this is the stable part. -/
def core (p : Program) : Program := { p with start_ms := none }

/-- The repair step of `extract_channel_json` (lines 40-45): trim the
captured segment, strip trailing commas with `rstrip(",")`, prepend `[` if
missing, append `]` if missing. -/
def repairSegment (s : Str) : Str :=
  let t := rstripCommas (pyStrip s)
  let t := if t.head? = some '[' then t else '[' :: t
  if t.getLast? = some ']' then t else t ++ [']']

-- Sanity checks of the embedding on concrete inputs.
example : repairSegment (str " [1,2, ") = str "[1,2]" := by decide
example : repairSegment (str "") = str "[]" := by decide
example : clean (str "  a\\b  ") = str "ab" := by decide
example : unquote (str "a%41b") = str "aAb" := by
  simp only [str, show "a%41b".data = ['a', '%', '4', '1', 'b'] from rfl]
  simp [unquote, hexVal]
example : removeUnicodeEscapes (str "x\\u0041y") = str "xy" := by
  simp only [str, show "x\\u0041y".data = ['x', '\\', 'u', '0', '0', '4', '1', 'y'] from rfl]
  simp [removeUnicodeEscapes, isHex]
example :
    parse_programs_from_json [⟨some 5000, none⟩, ⟨some 3000, none⟩]
      = [⟨str "Sin título", [], [], [], [], 3000, some (3000 - 7200000)⟩,
         ⟨str "Sin título", [], [], [], [], 5000, some 3000⟩] := by decide

/-! ## The repair step: claims C3 and C4 -/

/-- The repair algorithm exactly as claim C3 words it: trim surrounding
whitespace, strip a SINGLE trailing comma if one is present, prepend `[` if
the result does not start with it, append `]` if it does not end with it.
Kept for comparison with `repairSegment`, the embedding of the code. -/
def specRepairSingleComma (s : Str) : Str :=
  let t := pyStrip s
  let t := if t.getLast? = some ',' then t.dropLast else t
  let t := if t.head? = some '[' then t else '[' :: t
  if t.getLast? = some ']' then t else t ++ [']']

/-- Removal of every trailing comma, written as a left-to-right recursion
(a comma is dropped exactly when everything after it is dropped). -/
def stripAllTrailingCommas : Str → Str
  | [] => []
  | c :: rest =>
    if c = ',' ∧ stripAllTrailingCommas rest = [] then []
    else c :: stripAllTrailingCommas rest

/-- The repair algorithm as claim C3 must be amended: same steps, but every
trailing comma is stripped, not just one. -/
def specRepairAllCommas (s : Str) : Str :=
  let t := stripAllTrailingCommas (pyStrip s)
  let t := if t.head? = some '[' then t else '[' :: t
  if t.getLast? = some ']' then t else t ++ [']']

lemma stripAllTrailingCommas_concat_comma (l : Str) :
    stripAllTrailingCommas (l ++ [',']) = stripAllTrailingCommas l := by
  induction l with
  | nil => simp [stripAllTrailingCommas]
  | cons c rest ih => simp [stripAllTrailingCommas, ih]

lemma stripAllTrailingCommas_concat_ne (l : Str) (a : Char) (ha : a ≠ ',') :
    stripAllTrailingCommas (l ++ [a]) = l ++ [a] := by
  induction l with
  | nil => simp [stripAllTrailingCommas, ha]
  | cons c rest ih => simp [stripAllTrailingCommas, ih, ha]

lemma rstripCommas_eq_stripAllTrailingCommas (l : Str) :
    rstripCommas l = stripAllTrailingCommas l := by
  induction l using List.reverseRecOn with
  | nil => rfl
  | append_singleton l a ih =>
    by_cases ha : a = ','
    · subst ha
      rw [stripAllTrailingCommas_concat_comma, ← ih]
      simp [rstripCommas, List.dropWhile_cons]
    · rw [stripAllTrailingCommas_concat_ne l a ha]
      simp [rstripCommas, List.dropWhile_cons, ha]

/-- Claim C3 as stated is false: the code's `rstrip(",")` strips every
trailing comma, not a single one; on the input `"1,,"` the code produces
`"[1]"` while the claimed steps produce `"[1,]"`. -/
theorem repairSegment_single_comma_counterexample :
    repairSegment (str "1,,") = str "[1]"
    ∧ specRepairSingleComma (str "1,,") = str "[1,]"
    ∧ repairSegment (str "1,,") ≠ specRepairSingleComma (str "1,,") := by
  refine ⟨by decide, by decide, by decide⟩

/-- Claim C3 (amended): the repair step trims surrounding whitespace, strips
ALL trailing commas, prepends `[` if the result does not start with `[`, and
appends `]` if it does not end with `]`; on every input string the code
equals exactly these steps. -/
theorem repairSegment_eq_specRepairAllCommas (s : Str) :
    repairSegment s = specRepairAllCommas s := by
  simp only [repairSegment, specRepairAllCommas, rstripCommas_eq_stripAllTrailingCommas]

/-- Claim C4: repairing an already well-formed array — one that starts with
`[`, ends with `]`, and carries no surrounding whitespace — returns the
string verbatim, hence it parses to the same value as the input.  (The
conclusion is string identity, which is stronger than value-equality under
any parser.) -/
theorem repairSegment_idempotent (s : Str) (h1 : pyStrip s = s)
    (h2 : s.head? = some '[') (h3 : s.getLast? = some ']') :
    repairSegment s = s := by
  have hr : rstripCommas s = s := by
    obtain ⟨ys, rfl⟩ := List.getLast?_eq_some_iff.1 h3
    simp [rstripCommas, List.dropWhile_cons]
  simp [repairSegment, h1, hr, h2, h3]

/-- Concrete instantiation of `repairSegment_idempotent` at the
well-formed array `"[1]"`. -/
theorem repairSegment_idempotent_witness :
    pyStrip (str "[1]") = str "[1]" ∧ (str "[1]").head? = some '['
    ∧ (str "[1]").getLast? = some ']' ∧ repairSegment (str "[1]") = str "[1]" :=
  ⟨by decide, by decide, by decide,
    repairSegment_idempotent (str "[1]") (by decide) (by decide) (by decide)⟩

/-! ## The Listing Renderer: claim C9 -/

/-- Python `sep.join(parts)`. -/
def joinSep (sep : Str) : List Str → Str
  | [] => []
  | [x] => x
  | x :: xs => x ++ sep ++ joinSep sep xs

/-- The channel identity constants (lines 12-13). -/
def CHANNEL_ID : Str := str "acontra+ CINE"

/-- The channel display name (line 13). -/
def CHANNEL_DISPLAY : Str := str "acontra+ CINE"

/-- The `<programme>` block emitted for one program by
`generate_xmltv_for_channel` (lines 131-163).  The wall-clock rendering of a
millisecond instant (`ms_to_dt`/`dt_to_xmltv`, timezone arithmetic) is not
millisecond-level logic any claim touches, so it is abstracted as the
function argument `fmt`; every text field is interpolated verbatim, exactly
as the Python f-strings do. -/
def progLines (fmt : Int → Str) (p : Program) : List Str :=
  let start_str := fmt ((p.start_ms).getD 0)
  let end_str := fmt p.end_ms
  let title := if p.release_year = [] then p.title
    else p.title ++ str " (" ++ p.release_year ++ str ")"
  let desc_parts := (if p.synopsis = [] then [] else [p.synopsis])
    ++ (if p.rating = [] then [] else [str "Edad: " ++ p.rating])
  let desc := joinSep (str " | ") desc_parts
  [str "  <programme start=\"" ++ start_str ++ str "\" stop=\"" ++ end_str
      ++ str "\" channel=\"" ++ CHANNEL_ID ++ str "\">",
   str "    <title lang=\"es\">" ++ title ++ str "</title>"]
  ++ (if desc = [] then [] else [str "    <desc lang=\"es\">" ++ desc ++ str "</desc>"])
  ++ (if p.image_url = [] then [] else [str "    <icon src=\"" ++ p.image_url ++ str "\"/>"])
  ++ [str "  </programme>"]

/-- `generate_xmltv_for_channel` (lines 122-166): header, channel element,
one programme block per program, closing tag, joined with newlines. -/
def generate_xmltv_for_channel (fmt : Int → Str) (programs : List Program) : Str :=
  joinSep ['\n']
    ([str "<?xml version=\"1.0\" encoding=\"UTF-8\"?>",
      str "<tv generator-info-name=\"prime_acontra_plus\">",
      str "  <channel id=\"" ++ CHANNEL_ID ++ str "\">",
      str "    <display-name>" ++ CHANNEL_DISPLAY ++ str "</display-name>",
      str "  </channel>"]
     ++ (programs.map (progLines fmt)).flatten
     ++ [str "</tv>"])

/-- A program whose title contains markup-significant characters. -/
def markupTitleProgram : Program :=
  { title := str "R<&>D", synopsis := [], release_year := [], rating := []
  , image_url := [], end_ms := 0, start_ms := some 0 }

set_option maxRecDepth 8000 in
/-- Claim C9 is violated by the code: the renderer interpolates text fields
verbatim, so a title containing `<`, `&` and `>` appears literally — and in
particular unescaped — inside the emitted `<title>` element, corrupting the
markup structure. -/
theorem generate_xmltv_no_escaping :
    str "<title lang=\"es\">R<&>D</title>"
      <:+: generate_xmltv_for_channel (fun _ => []) [markupTitleProgram] := by
  decide

/-! ## Helper lemmas about the start-assignment and sort stages -/

@[simp] lemma clean_nil : clean [] = [] := rfl

@[simp] lemma core_end_ms (p : Program) : (core p).end_ms = p.end_ms := rfl

lemma chainStarts_length (prev : Int) (l : List Program) :
    (chainStarts prev l).length = l.length := by
  induction l generalizing prev with
  | nil => rfl
  | cons p ps ih => simp [chainStarts, ih]

lemma assignStarts_length (l : List Program) :
    (assignStarts l).length = l.length := by
  cases l with
  | nil => rfl
  | cons p ps => simp [assignStarts, chainStarts_length]

lemma chainStarts_map_core (prev : Int) (l : List Program) :
    (chainStarts prev l).map core = l.map core := by
  induction l generalizing prev with
  | nil => rfl
  | cons p ps ih => simp only [chainStarts, List.map_cons, ih, core]

lemma assignStarts_map_core (l : List Program) :
    (assignStarts l).map core = l.map core := by
  cases l with
  | nil => rfl
  | cons p ps => simp only [assignStarts, List.map_cons, chainStarts_map_core, core]

lemma chainStarts_map_end (prev : Int) (l : List Program) :
    (chainStarts prev l).map Program.end_ms = l.map Program.end_ms := by
  induction l generalizing prev with
  | nil => rfl
  | cons p ps ih => simp only [chainStarts, List.map_cons, ih]

lemma assignStarts_map_end (l : List Program) :
    (assignStarts l).map Program.end_ms = l.map Program.end_ms := by
  cases l with
  | nil => rfl
  | cons p ps => simp only [assignStarts, List.map_cons, chainStarts_map_end]

lemma parse_perm_core (s : List RawScheduleEntry) :
    ((parse_programs_from_json s).map core).Perm ((buildPrograms s).map core) := by
  unfold parse_programs_from_json
  rw [assignStarts_map_core]
  exact (List.perm_insertionSort progLE _).map core

lemma parse_sorted_end (s : List RawScheduleEntry) :
    ((parse_programs_from_json s).map Program.end_ms).Pairwise (· ≤ ·) := by
  unfold parse_programs_from_json
  rw [assignStarts_map_end]
  exact List.pairwise_map.mpr (List.sorted_insertionSort progLE (buildPrograms s))

lemma chainStarts_get_zero (prev : Int) (l : List Program)
    (h : 0 < (chainStarts prev l).length) :
    ((chainStarts prev l).get ⟨0, h⟩).start_ms = some prev := by
  cases l with
  | nil => simp [chainStarts] at h
  | cons p ps => rfl

lemma chainStarts_get_succ (prev : Int) (l : List Program) (i : Nat)
    (h : i + 1 < (chainStarts prev l).length) :
    ((chainStarts prev l).get ⟨i + 1, h⟩).start_ms
      = some (((chainStarts prev l).get ⟨i, by omega⟩).end_ms) := by
  induction l generalizing prev i with
  | nil => simp [chainStarts] at h
  | cons p ps ih =>
    cases i with
    | zero =>
      cases ps with
      | nil => simp [chainStarts] at h
      | cons r rs => rfl
    | succ n =>
      have h' : n + 1 < (chainStarts p.end_ms ps).length := by
        simpa [chainStarts] using h
      exact ih p.end_ms n h'

lemma assignStarts_get_zero (l : List Program) (h : 0 < (assignStarts l).length) :
    ((assignStarts l).get ⟨0, h⟩).start_ms
      = some (((assignStarts l).get ⟨0, h⟩).end_ms - 7200000) := by
  cases l with
  | nil => simp [assignStarts] at h
  | cons p ps => norm_num [assignStarts]

lemma assignStarts_get_succ (l : List Program) (i : Nat)
    (h : i + 1 < (assignStarts l).length) :
    ((assignStarts l).get ⟨i + 1, h⟩).start_ms
      = some (((assignStarts l).get ⟨i, by omega⟩).end_ms) := by
  cases l with
  | nil => simp [assignStarts] at h
  | cons p ps =>
    cases i with
    | zero =>
      have h0 : 0 < (chainStarts p.end_ms ps).length := by
        simpa [assignStarts] using h
      exact chainStarts_get_zero p.end_ms ps h0
    | succ n =>
      have h' : n + 1 < (chainStarts p.end_ms ps).length := by
        simpa [assignStarts] using h
      exact chainStarts_get_succ p.end_ms ps n h'

/-! ## Claim C1: sort then chain the starts -/

/-- Claim C1: `parse_programs_from_json` first sorts the built programs
ascending by `end_ms` (the output's end list is nondecreasing and the output
is, starts aside, a permutation of the built programs), then assigns
`start_ms`: the program at index 0 gets its own `end_ms - 7,200,000` exactly
and the program at each index i+1 gets the `end_ms` of the program at
index i. -/
theorem parse_programs_sorts_then_chains (s : List RawScheduleEntry) :
    ((parse_programs_from_json s).map Program.end_ms).Pairwise (· ≤ ·)
    ∧ ((parse_programs_from_json s).map core).Perm ((buildPrograms s).map core)
    ∧ (∀ h : 0 < (parse_programs_from_json s).length,
        ((parse_programs_from_json s).get ⟨0, h⟩).start_ms
          = some (((parse_programs_from_json s).get ⟨0, h⟩).end_ms - 7200000))
    ∧ (∀ (i : Nat) (h : i + 1 < (parse_programs_from_json s).length),
        ((parse_programs_from_json s).get ⟨i + 1, h⟩).start_ms
          = some (((parse_programs_from_json s).get ⟨i, by omega⟩).end_ms)) :=
  ⟨parse_sorted_end s, parse_perm_core s,
   fun h => assignStarts_get_zero _ h,
   fun i h => assignStarts_get_succ _ i h⟩

/-- A two-entry schedule given out of chronological order. -/
def sampleTwo : List RawScheduleEntry := [⟨some 5000, none⟩, ⟨some 3000, none⟩]

/-- Concrete instantiation of `parse_programs_sorts_then_chains` on
`sampleTwo`: the first sorted program starts two hours before its end, the
second starts at the first one's end. -/
theorem parse_programs_sorts_then_chains_witness :
    ((parse_programs_from_json sampleTwo).get ⟨0, by decide⟩).start_ms
      = some (((parse_programs_from_json sampleTwo).get ⟨0, by decide⟩).end_ms - 7200000)
    ∧ ((parse_programs_from_json sampleTwo).get ⟨1, by decide⟩).start_ms
      = some (((parse_programs_from_json sampleTwo).get ⟨0, by decide⟩).end_ms) :=
  ⟨(parse_programs_sorts_then_chains sampleTwo).2.2.1 (by decide),
   (parse_programs_sorts_then_chains sampleTwo).2.2.2 0 (by decide)⟩

/-! ## Claim C2: startMs versus endMs -/

lemma chainStarts_start_le (prev : Int) (l : List Program)
    (hsort : l.Pairwise progLE) (hprev : ∀ q ∈ l, prev ≤ q.end_ms) :
    ∀ p ∈ chainStarts prev l, ∃ v, p.start_ms = some v ∧ v ≤ p.end_ms := by
  induction l generalizing prev with
  | nil => intro p hp; simp [chainStarts] at hp
  | cons q qs ih =>
    intro p hp
    simp only [chainStarts, List.mem_cons] at hp
    rcases hp with rfl | hp
    · exact ⟨prev, rfl, hprev q (List.mem_cons_self q qs)⟩
    · exact ih q.end_ms (List.pairwise_cons.mp hsort).2
        (fun r hr => (List.pairwise_cons.mp hsort).1 r hr) p hp

lemma chainStarts_start_lt (prev : Int) (l : List Program)
    (hsort : l.Pairwise (fun a b => a.end_ms < b.end_ms))
    (hprev : ∀ q ∈ l, prev < q.end_ms) :
    ∀ p ∈ chainStarts prev l, ∃ v, p.start_ms = some v ∧ v < p.end_ms := by
  induction l generalizing prev with
  | nil => intro p hp; simp [chainStarts] at hp
  | cons q qs ih =>
    intro p hp
    simp only [chainStarts, List.mem_cons] at hp
    rcases hp with rfl | hp
    · exact ⟨prev, rfl, hprev q (List.mem_cons_self q qs)⟩
    · exact ih q.end_ms (List.pairwise_cons.mp hsort).2
        (fun r hr => (List.pairwise_cons.mp hsort).1 r hr) p hp

lemma assignStarts_start_le (l : List Program) (hsort : l.Pairwise progLE) :
    ∀ p ∈ assignStarts l, ∃ v, p.start_ms = some v ∧ v ≤ p.end_ms := by
  cases l with
  | nil => intro p hp; simp [assignStarts] at hp
  | cons q qs =>
    intro p hp
    simp only [assignStarts, List.mem_cons] at hp
    rcases hp with rfl | hp
    · exact ⟨q.end_ms - 2 * 3600 * 1000, rfl,
        by show q.end_ms - 2 * 3600 * 1000 ≤ q.end_ms; omega⟩
    · exact chainStarts_start_le q.end_ms qs (List.pairwise_cons.mp hsort).2
        (fun r hr => (List.pairwise_cons.mp hsort).1 r hr) p hp

lemma assignStarts_start_lt (l : List Program)
    (hsort : l.Pairwise (fun a b => a.end_ms < b.end_ms)) :
    ∀ p ∈ assignStarts l, ∃ v, p.start_ms = some v ∧ v < p.end_ms := by
  cases l with
  | nil => intro p hp; simp [assignStarts] at hp
  | cons q qs =>
    intro p hp
    simp only [assignStarts, List.mem_cons] at hp
    rcases hp with rfl | hp
    · exact ⟨q.end_ms - 2 * 3600 * 1000, rfl,
        by show q.end_ms - 2 * 3600 * 1000 < q.end_ms; omega⟩
    · exact chainStarts_start_lt q.end_ms qs (List.pairwise_cons.mp hsort).2
        (fun r hr => (List.pairwise_cons.mp hsort).1 r hr) p hp

/-- A schedule with two entries sharing the end timestamp 1000. -/
def tieSchedule : List RawScheduleEntry := [⟨some 1000, none⟩, ⟨some 1000, none⟩]

/-- Claim C2 as stated is false: on a schedule with two entries sharing an
end timestamp, the Normalizer outputs a program whose `start_ms` equals its
`end_ms`, violating the strict inequality. -/
theorem parse_programs_strict_counterexample :
    ∃ p ∈ parse_programs_from_json tieSchedule, p.start_ms = some p.end_ms := by
  decide

/-- Claim C2 (amended): every program satisfies `startMs ≤ endMs`, and the
inequality is strict whenever the built programs' end timestamps are
pairwise distinct (equality arises only from duplicated end timestamps). -/
theorem parse_programs_start_le_end (s : List RawScheduleEntry) :
    (∀ p ∈ parse_programs_from_json s, ∃ v, p.start_ms = some v ∧ v ≤ p.end_ms)
    ∧ ((buildPrograms s).Pairwise (fun a b => a.end_ms ≠ b.end_ms) →
        ∀ p ∈ parse_programs_from_json s, ∃ v, p.start_ms = some v ∧ v < p.end_ms) := by
  constructor
  · exact assignStarts_start_le _ (List.sorted_insertionSort progLE _)
  · intro hne
    apply assignStarts_start_lt
    have hs : (List.insertionSort progLE (buildPrograms s)).Pairwise progLE :=
      List.sorted_insertionSort progLE _
    have hne' : (List.insertionSort progLE (buildPrograms s)).Pairwise
        (fun a b => a.end_ms ≠ b.end_ms) :=
      ((List.perm_insertionSort progLE _).pairwise_iff (fun h => Ne.symm h)).mpr hne
    exact (hs.and hne').imp (fun h => lt_of_le_of_ne h.1 h.2)

/-- Concrete instantiation of `parse_programs_start_le_end` on a singleton
schedule: the one program's start is at most (indeed, two hours before) its
end. -/
theorem parse_programs_start_le_end_witness :
    ∃ v, (⟨str "Sin título", [], [], [], [], 3000, some (-7197000)⟩ : Program).start_ms = some v
      ∧ v ≤ (⟨str "Sin título", [], [], [], [], 3000, some (-7197000)⟩ : Program).end_ms :=
  (parse_programs_start_le_end [⟨some 3000, none⟩]).1 _ (by decide)

/-! ## Claim C7: stable sort under ties -/

lemma filter_insertionSort_end (v : Int) (l : List Program) :
    (List.insertionSort progLE l).filter (fun p => p.end_ms == v)
      = l.filter (fun p => p.end_ms == v) := by
  have hall : ∀ a ∈ l.filter (fun p => p.end_ms == v), a.end_ms = v := by
    intro a ha
    simpa using (List.mem_filter.mp ha).2
  have hA : (l.filter (fun p => p.end_ms == v)).Pairwise progLE :=
    List.pairwise_of_forall_mem_list (fun a ha b hb => by
      show a.end_ms ≤ b.end_ms
      rw [hall a ha, hall b hb])
  have h1 : List.Sublist (l.filter (fun p => p.end_ms == v)) (List.insertionSort progLE l) :=
    List.sublist_insertionSort hA (List.filter_sublist l)
  have h2 : (l.filter (fun p => p.end_ms == v)).filter (fun p => p.end_ms == v)
      = l.filter (fun p => p.end_ms == v) :=
    List.filter_eq_self.mpr (fun a ha => by simpa using hall a ha)
  have h3 : List.Sublist (l.filter (fun p => p.end_ms == v))
      ((List.insertionSort progLE l).filter (fun p => p.end_ms == v)) := by
    rw [← h2]
    exact h1.filter _
  have h4 : ((List.insertionSort progLE l).filter (fun p => p.end_ms == v)).length
      = (l.filter (fun p => p.end_ms == v)).length :=
    ((List.perm_insertionSort progLE l).filter _).length_eq
  exact (h3.eq_of_length h4.symm).symm

lemma filter_map_core_comm (f : Program → Bool) (hf : ∀ p, f (core p) = f p)
    (l : List Program) :
    (l.filter f).map core = (l.map core).filter f := by
  rw [List.filter_map]
  congr 1
  apply List.filter_congr
  intro p _
  exact (hf p).symm

/-- Claim C7: entries with equal `end_ms` are all retained by the Normalizer
and keep their relative input order: for every end value v, the programs
with that end, read off the output in order (starts aside), are exactly the
programs built from the input entries with that end, in input order. -/
theorem parse_programs_stable (s : List RawScheduleEntry) (v : Int) :
    ((parse_programs_from_json s).filter (fun p => p.end_ms == v)).map core
      = ((buildPrograms s).filter (fun p => p.end_ms == v)).map core := by
  have hf : ∀ p : Program, ((core p).end_ms == v) = (p.end_ms == v) := fun p => rfl
  rw [filter_map_core_comm _ hf, filter_map_core_comm _ hf]
  unfold parse_programs_from_json
  rw [assignStarts_map_core]
  rw [← filter_map_core_comm _ hf, ← filter_map_core_comm _ hf]
  rw [filter_insertionSort_end]

-- The stability theorem, checked on a concrete tie: both entries with end
-- 1000 survive and keep their input order (distinguished by their titles).
example :
    ((parse_programs_from_json
        [⟨some 1000, some ⟨none, none, some (str "A"), none, none⟩⟩,
         ⟨some 1000, some ⟨none, none, some (str "B"), none, none⟩⟩]).map
      Program.title) = [str "A", str "B"] := by decide

/-! ## Claim C8: which entries are skipped -/

lemma buildPrograms_length (s : List RawScheduleEntry) :
    (buildPrograms s).length = (s.filter (fun item => endTruthy item.end_ms)).length := by
  induction s with
  | nil => rfl
  | cons it rest ih =>
    cases h : endTruthy it.end_ms with
    | false => simpa [buildPrograms, List.filterMap_cons, List.filter_cons, h] using ih
    | true => simpa [buildPrograms, List.filterMap_cons, List.filter_cons, h] using ih

/-- A schedule entry carrying the end timestamp 0. -/
def entryZero : RawScheduleEntry := ⟨some 0, none⟩

/-- Claim C8 as stated is false: the entry `{end: 0}` possesses an `end`
timestamp, yet the Normalizer skips it (Python truthiness treats 0 like a
missing value), producing no program for it. -/
theorem parse_programs_skip_counterexample :
    entryZero.end_ms = some 0 ∧ parse_programs_from_json [entryZero] = [] :=
  ⟨rfl, by decide⟩

/-- Claim C8 (amended): an entry is skipped exactly when its `end` timestamp
is absent or Python-falsy (the integer 0); every entry with a present,
nonzero `end` produces exactly one program — the output length equals the
number of such entries — and a skipped entry never aborts processing: the
result on `item :: rest` with a falsy `item` is the result on `rest`. -/
theorem parse_programs_skip (s : List RawScheduleEntry) :
    (parse_programs_from_json s).length
      = (s.filter (fun item => endTruthy item.end_ms)).length
    ∧ (∀ item rest, endTruthy item.end_ms = false →
        parse_programs_from_json (item :: rest) = parse_programs_from_json rest) := by
  constructor
  · unfold parse_programs_from_json
    rw [assignStarts_length, List.length_insertionSort, buildPrograms_length]
  · intro item rest h
    unfold parse_programs_from_json
    have : buildPrograms (item :: rest) = buildPrograms rest := by
      simp [buildPrograms, List.filterMap_cons, h]
    rw [this]

/-- Concrete instantiation of `parse_programs_skip`: prepending the falsy
entry `{end: 0}` leaves the parse of the remaining schedule unchanged. -/
theorem parse_programs_skip_witness :
    parse_programs_from_json [entryZero, ⟨some 3000, none⟩]
      = parse_programs_from_json [⟨some 3000, none⟩] :=
  (parse_programs_skip []).2 entryZero [⟨some 3000, none⟩] (by decide)

/-! ## Claims C5, C6, C10: per-entry field computations -/

lemma core_mkProgram_mem_parse (s : List RawScheduleEntry) (item : RawScheduleEntry)
    (h1 : item ∈ s) (h2 : endTruthy item.end_ms = true) :
    core (mkProgram item) ∈ (parse_programs_from_json s).map core := by
  have hb : mkProgram item ∈ buildPrograms s :=
    List.mem_filterMap.mpr ⟨item, h1, by simp [h2]⟩
  exact ((parse_perm_core s).mem_iff).mpr (List.mem_map_of_mem core hb)

/-- Claim C5: for every entry the Normalizer keeps, the program's rating is
the localized string "Todas las edades" exactly when the cleaned rating code
is "ALL"; any other cleaned code passes through unchanged; an absent or
empty rating yields the empty string.  The entry's program (its start
aside) appears in the Normalizer's output. -/
theorem mkProgram_rating_spec (s : List RawScheduleEntry) (item : RawScheduleEntry)
    (h1 : item ∈ s) (h2 : endTruthy item.end_ms = true) :
    core (mkProgram item) ∈ (parse_programs_from_json s).map core
    ∧ (clean (rawRatingOf item) = str "ALL" →
        (mkProgram item).rating = str "Todas las edades")
    ∧ (clean (rawRatingOf item) ≠ str "ALL" →
        (mkProgram item).rating = clean (rawRatingOf item))
    ∧ (rawRatingOf item = [] → (mkProgram item).rating = []) := by
  refine ⟨core_mkProgram_mem_parse s item h1 h2, ?_, ?_, ?_⟩
  · intro h
    simp [mkProgram, h]
  · intro h
    simp [mkProgram, h]
  · intro h
    simp [mkProgram, h]
    decide

/-- An entry whose rating code is "ALL". -/
def entryALL : RawScheduleEntry :=
  ⟨some 1000, some ⟨none, none, none, none, some ⟨some (str "ALL")⟩⟩⟩

/-- Concrete instantiation of `mkProgram_rating_spec`: the rating code
"ALL" is translated to the localized all-ages string. -/
theorem mkProgram_rating_spec_witness :
    (mkProgram entryALL).rating = str "Todas las edades" :=
  (mkProgram_rating_spec [entryALL] entryALL (by decide) (by decide)).2.1 (by decide)

/-- Claim C6: the title fallback chain — the Normalizer prefers
`metadata.title` (whenever it cleans to something non-empty, that is the
title); if the raw title is the empty string it uses the image's alternate
text (when that cleans to something non-empty); if both are empty the title
is the localized placeholder "Sin título".  The entry's program (its start
aside) appears in the Normalizer's output. -/
theorem mkProgram_title_fallback (s : List RawScheduleEntry) (item : RawScheduleEntry)
    (h1 : item ∈ s) (h2 : endTruthy item.end_ms = true) :
    core (mkProgram item) ∈ (parse_programs_from_json s).map core
    ∧ (clean (rawTitleOf item) ≠ [] →
        (mkProgram item).title = clean (rawTitleOf item))
    ∧ (rawTitleOf item = [] → clean (altTextOf item) ≠ [] →
        (mkProgram item).title = clean (altTextOf item))
    ∧ (rawTitleOf item = [] → altTextOf item = [] →
        (mkProgram item).title = str "Sin título") := by
  refine ⟨core_mkProgram_mem_parse s item h1 h2, ?_, ?_, ?_⟩
  · intro h
    have hraw : rawTitleOf item ≠ [] := fun he => h (by rw [he, clean_nil])
    simp [mkProgram, hraw, h]
  · intro ht ha
    simp [mkProgram, ht, ha]
  · intro ht ha
    simp [mkProgram, ht, ha]

/-- An entry with an empty title and a non-empty image alternate text. -/
def entryAltTitle : RawScheduleEntry :=
  ⟨some 1000, some ⟨none, none, some [], some ⟨none, some (str "Alt")⟩, none⟩⟩

/-- Concrete instantiation of `mkProgram_title_fallback`: an entry with an
empty title takes the image's alternate text as its title. -/
theorem mkProgram_title_fallback_witness :
    (mkProgram entryAltTitle).title = clean (altTextOf entryAltTitle) :=
  (mkProgram_title_fallback [entryAltTitle] entryAltTitle (by decide) (by decide)).2.2.1
    (by decide) (by decide)

/-- Claim C10: an entry whose raw title is non-empty but consists only of
whitespace, with a non-empty alternate text, gets the placeholder
"Sin título" as its title, not the alternate text: the fallback to the
alternate text tests the raw title before cleaning, while the fallback to
the placeholder tests the cleaned title. -/
theorem mkProgram_whitespace_title (item : RawScheduleEntry)
    (h1 : rawTitleOf item ≠ []) (h2 : ∀ c ∈ rawTitleOf item, c.isWhitespace)
    (_h3 : altTextOf item ≠ []) :
    (mkProgram item).title = str "Sin título" := by
  have hstrip : pyStrip (rawTitleOf item) = [] := by
    have hd : (rawTitleOf item).dropWhile Char.isWhitespace = [] :=
      List.dropWhile_eq_nil_iff.mpr h2
    simp [pyStrip, hd]
  have hclean : clean (rawTitleOf item) = [] := by
    simp [clean, hstrip]
  simp [mkProgram, h1, hclean]

/-- An entry with a whitespace-only title and a non-empty alternate text. -/
def entryWhitespaceTitle : RawScheduleEntry :=
  ⟨some 1000, some ⟨none, none, some (str "  "), some ⟨none, some (str "Alt")⟩, none⟩⟩

/-- Concrete instantiation of `mkProgram_whitespace_title`: a title of two
spaces with alternate text "Alt" produces the placeholder, not "Alt". -/
theorem mkProgram_whitespace_title_witness :
    rawTitleOf entryWhitespaceTitle ≠ []
    ∧ altTextOf entryWhitespaceTitle ≠ []
    ∧ (mkProgram entryWhitespaceTitle).title = str "Sin título" :=
  ⟨by decide, by decide,
    mkProgram_whitespace_title entryWhitespaceTitle (by decide) (by decide) (by decide)⟩
